import Mathlib

/-!
Verification of the Kalshi-Quant-TeleBot trade-lifecycle ledger
(`src/performance_analytics.py`) and market-data streamer
(`src/market_data_streamer.py`).

Shallow embedding conventions:
* Python `float` values (prices, P&L) are modelled as `ℚ`; quantities as `ℤ`.
* `datetime` values are modelled as integer timestamps in seconds;
  `strftime` calendar bucketing is modelled by integer-division day/week/month
  keys (the claims do not depend on the exact calendar rendering).
* Python `dict` objects (`daily_pnl`, time buckets) are modelled as
  insertion-ordered association lists, matching CPython dict semantics.
* `None` becomes `Option.none`; a fallible operation returns a pair with a
  `Bool` (the Python function returns `True`/`False`) or an error variant.
-/

/-- One trade record, mirroring the `Trade` dataclass of
`performance_analytics.py` (field for field; `entry_time` is always set by
`__post_init__`, so it is non-optional here). -/
structure Trade where
  trade_id : String
  market_id : String
  strategy : String
  side : String
  quantity : Int
  entry_price : ℚ
  exit_price : Option ℚ := none
  entry_time : Int
  exit_time : Option Int := none
  pnl : Option ℚ := none
  pnl_pct : Option ℚ := none
  holding_period : Option ℚ := none
  exit_reason : Option String := none
  confidence : Option ℚ := none
deriving DecidableEq, Repr

/-- Property `Trade.is_closed`: the trade is closed iff an exit price is present. -/
def Trade.is_closed (t : Trade) : Bool :=
  t.exit_price.isSome

/-- Method `Trade.close_trade(exit_price, exit_reason)`: sets the exit fields and the
derived P&L fields.  `now` models the `datetime.now()` call that stamps
`exit_time`.  Mirrors lines 41-60 of `performance_analytics.py`: the P&L is
`(exit - entry) * quantity` when `side.lower() == 'buy'`, else
`(entry - exit) * quantity`; `pnl_pct` is only assigned when the entry
notional is nonzero (otherwise the field keeps its previous value, `None`
for a trade closed from the open state); the holding period is the elapsed
seconds divided by 3600 (both timestamps are always set, so the Python
truthiness guard on them always passes). -/
def Trade.close_trade (t : Trade) (exit_price : ℚ) (exit_reason : String)
    (now : Int) : Trade :=
  let pnl : ℚ :=
    if t.side.toLower = "buy" then (exit_price - t.entry_price) * (t.quantity : ℚ)
    else (t.entry_price - exit_price) * (t.quantity : ℚ)
  let entry_value : ℚ := t.entry_price * (t.quantity : ℚ)
  { t with
    exit_price := some exit_price
    exit_time := some now
    exit_reason := some exit_reason
    pnl := some pnl
    pnl_pct := if entry_value ≠ 0 then some (pnl / entry_value * 100) else t.pnl_pct
    holding_period := some (((now : ℚ) - (t.entry_time : ℚ)) / 3600) }

/-- Day-bucket key of a timestamp: models `exit_time.strftime('%Y-%m-%d')`
(calendar-day granularity; rendered here as the day number since epoch). -/
def dateKey (t : Int) : String :=
  toString (t / 86400)

/-- Add `v` into the bucket keyed `k` of an insertion-ordered association
list; models `defaultdict(float)` update `d[k] += v`. -/
def bumpBucket : List (String × ℚ) → String → ℚ → List (String × ℚ)
  | [], k, v => [(k, v)]
  | (k', v') :: rest, k, v =>
      if k' = k then (k', v' + v) :: rest else (k', v') :: bumpBucket rest k v

/-- The ledger state of `PerformanceAnalytics`: the trade list and the
day-bucketed realized P&L (`daily_pnl`, a `defaultdict(float)`).  The
`strategy_performance` field of the Python class is initialized but never
read or written anywhere in the repository, so it is omitted. -/
structure PerformanceAnalytics where
  trades : List Trade := []
  daily_pnl : List (String × ℚ) := []
deriving DecidableEq, Repr

/-- Method `PerformanceAnalytics.record_trade`: appends the trade. -/
def PerformanceAnalytics.record_trade (pa : PerformanceAnalytics) (t : Trade) :
    PerformanceAnalytics :=
  { pa with trades := pa.trades ++ [t] }

/-- The scan of `PerformanceAnalytics.close_trade` (lines 78-87): find the
first trade with matching identifier that is not closed, close it in place,
and return the rewritten list together with the closed record; `none` when
no such trade exists. -/
def closeInList (trades : List Trade) (tid : String) (e : ℚ) (r : String)
    (now : Int) : Option (List Trade × Trade) :=
  match trades with
  | [] => none
  | t :: ts =>
      if t.trade_id = tid ∧ t.is_closed = false then
        some ((t.close_trade e r now) :: ts, t.close_trade e r now)
      else
        match closeInList ts tid e r now with
        | some (ts', c) => some (t :: ts', c)
        | none => none

/-- Outcome of `PerformanceAnalytics.close_trade`: the Python function
either returns a boolean, or raises `TypeError` out of the success-path log
f-string at line 86, which formats `trade.pnl_pct` with `:.2f` — that
format raises when the percent return is `None`, i.e. exactly when the
closed trade's entry notional is zero. -/
inductive CloseOutcome where
  | ret (b : Bool)
  | typeError
deriving DecidableEq, Repr

/-- Method `PerformanceAnalytics.close_trade(trade_id, exit_price,
exit_reason)` (lines 76-90): on a successful match the trade is rewritten in
place and its freshly computed P&L added into the bucket for the exit
calendar day (lines 80-84); THEN the success log at line 86 formats `pnl`
and `pnl_pct` with `:.2f`.  When `pnl_pct` is `None` (zero entry notional)
that f-string raises `TypeError` AFTER the mutations, so the call never
returns `True`; with a defined percent return it returns `True`.  When no
open trade matches, the ledger is untouched and the function returns
`False` (the warning log at line 89 cannot raise). -/
def PerformanceAnalytics.close_trade (pa : PerformanceAnalytics) (tid : String)
    (e : ℚ) (r : String) (now : Int) : PerformanceAnalytics × CloseOutcome :=
  match closeInList pa.trades tid e r now with
  | some (ts', c) =>
      ({ trades := ts',
         daily_pnl := bumpBucket pa.daily_pnl (dateKey now) (c.pnl.getD 0) },
       if c.pnl_pct.isSome then .ret true else .typeError)
  | none => (pa, .ret false)

/-- Claim C2: for a trade closed at exit price `e`, the realized P&L is
`(e - entry) * quantity` when the side lowercases to `buy` and
`(entry - e) * quantity` otherwise; the percent return is
`pnl / (entry * quantity) * 100` when the entry notional is nonzero and stays
`none` when it is zero; and for positive quantity a buy trade has positive
P&L iff `e > entry` while any other side has positive P&L iff `e < entry`. -/
theorem claim_C2 (t : Trade) (e : ℚ) (r : String) (now : Int)
    (hopen : t.pnl_pct = none) :
    ((t.side.toLower = "buy" →
        (t.close_trade e r now).pnl = some ((e - t.entry_price) * (t.quantity : ℚ)))
     ∧ (t.side.toLower ≠ "buy" →
        (t.close_trade e r now).pnl = some ((t.entry_price - e) * (t.quantity : ℚ))))
    ∧ ((t.entry_price * (t.quantity : ℚ) ≠ 0 →
        ∃ p, (t.close_trade e r now).pnl = some p ∧
          (t.close_trade e r now).pnl_pct =
            some (p / (t.entry_price * (t.quantity : ℚ)) * 100))
     ∧ (t.entry_price * (t.quantity : ℚ) = 0 →
        (t.close_trade e r now).pnl_pct = none))
    ∧ (0 < t.quantity →
        ∀ p, (t.close_trade e r now).pnl = some p →
          ((t.side.toLower = "buy" → (0 < p ↔ t.entry_price < e))
           ∧ (t.side.toLower ≠ "buy" → (0 < p ↔ e < t.entry_price)))) := by
  have hq : ∀ hq' : 0 < t.quantity, (0 : ℚ) < (t.quantity : ℚ) := by
    intro hq'; exact_mod_cast hq'
  refine ⟨⟨?_, ?_⟩, ⟨?_, ?_⟩, ?_⟩
  · intro hbuy
    simp [Trade.close_trade, hbuy]
  · intro hsell
    simp [Trade.close_trade, hsell]
  · intro hnz
    refine ⟨_, rfl, ?_⟩
    simp [Trade.close_trade, hnz]
  · intro hz
    simp [Trade.close_trade, hz, hopen]
  · intro hq' p hp
    have hqQ : (0 : ℚ) < (t.quantity : ℚ) := hq hq'
    constructor
    · intro hbuy
      have h1 : (t.close_trade e r now).pnl =
          some ((e - t.entry_price) * (t.quantity : ℚ)) := by
        simp [Trade.close_trade, hbuy]
      rw [h1] at hp
      injection hp with hp
      subst hp
      constructor
      · intro hpos
        by_contra hle
        push_neg at hle
        nlinarith
      · intro hlt
        nlinarith
    · intro hsell
      have h1 : (t.close_trade e r now).pnl =
          some ((t.entry_price - e) * (t.quantity : ℚ)) := by
        simp [Trade.close_trade, hsell]
      rw [h1] at hp
      injection hp with hp
      subst hp
      constructor
      · intro hpos
        by_contra hle
        push_neg at hle
        nlinarith
      · intro hlt
        nlinarith

/-- A concrete open buy trade: quantity 10 at entry price 50. -/
def tradeT1 : Trade :=
  { trade_id := "T1", market_id := "M1", strategy := "s", side := "buy",
    quantity := 10, entry_price := 50, entry_time := 0 }

/-- Witness for C2 at the spec's scenario trade `T1` (buy, qty 10, entry 50,
closed at 60). -/
theorem claim_C2_witness :
    tradeT1.pnl_pct = none ∧
    ((tradeT1.side.toLower = "buy" →
        (tradeT1.close_trade 60 "manual" 3600).pnl =
          some ((60 - tradeT1.entry_price) * (tradeT1.quantity : ℚ)))
     ∧ (tradeT1.side.toLower ≠ "buy" →
        (tradeT1.close_trade 60 "manual" 3600).pnl =
          some ((tradeT1.entry_price - 60) * (tradeT1.quantity : ℚ))))
    ∧ ((tradeT1.entry_price * (tradeT1.quantity : ℚ) ≠ 0 →
        ∃ p, (tradeT1.close_trade 60 "manual" 3600).pnl = some p ∧
          (tradeT1.close_trade 60 "manual" 3600).pnl_pct =
            some (p / (tradeT1.entry_price * (tradeT1.quantity : ℚ)) * 100))
     ∧ (tradeT1.entry_price * (tradeT1.quantity : ℚ) = 0 →
        (tradeT1.close_trade 60 "manual" 3600).pnl_pct = none))
    ∧ (0 < tradeT1.quantity →
        ∀ p, (tradeT1.close_trade 60 "manual" 3600).pnl = some p →
          ((tradeT1.side.toLower = "buy" → (0 < p ↔ tradeT1.entry_price < 60))
           ∧ (tradeT1.side.toLower ≠ "buy" → (0 < p ↔ 60 < tradeT1.entry_price)))) :=
  ⟨rfl, claim_C2 tradeT1 60 "manual" 3600 rfl⟩

/-- The scan returns `none` exactly when every trade carrying the identifier
is already closed (in particular when no trade carries it). -/
theorem closeInList_eq_none_iff (ts : List Trade) (tid : String) (e : ℚ)
    (r : String) (now : Int) :
    closeInList ts tid e r now = none ↔
      ∀ t ∈ ts, t.trade_id = tid → t.is_closed = true := by
  induction ts with
  | nil => simp [closeInList]
  | cons t ts ih =>
      by_cases h : t.trade_id = tid ∧ t.is_closed = false
      · simp only [closeInList, if_pos h]
        constructor
        · intro hfalse; cases hfalse
        · intro hall
          have := hall t (by simp) h.1
          rw [h.2] at this
          cases this
      · simp only [closeInList, if_neg h]
        rcases hrec : closeInList ts tid e r now with _ | ⟨ts', c⟩
        · simp only [List.mem_cons]
          constructor
          · intro _ u hu hutid
            rcases hu with rfl | hu
            · by_contra hnc
              exact h ⟨hutid, by revert hnc; cases u.is_closed <;> simp⟩
            · exact (ih.mp hrec) u hu hutid
          · intro _; trivial
        · simp only [List.mem_cons]
          constructor
          · intro hfalse; cases hfalse
          · intro hall
            have : closeInList ts tid e r now = none :=
              ih.mpr (fun u hu hutid => hall u (Or.inr hu) hutid)
            rw [this] at hrec
            cases hrec

/-- Full characterization of a successful scan: the list splits as
`pre ++ t :: post` where `t` is the first open trade carrying the identifier,
and only `t` is rewritten (to its closed form). -/
theorem closeInList_eq_some_spec (ts : List Trade) (tid : String) (e : ℚ)
    (r : String) (now : Int) (ts' : List Trade) (c : Trade)
    (h : closeInList ts tid e r now = some (ts', c)) :
    ∃ pre t post, ts = pre ++ t :: post ∧
      ts' = pre ++ (t.close_trade e r now) :: post ∧
      c = t.close_trade e r now ∧
      t.trade_id = tid ∧ t.is_closed = false ∧
      ∀ u ∈ pre, ¬(u.trade_id = tid ∧ u.is_closed = false) := by
  induction ts generalizing ts' c with
  | nil => simp [closeInList] at h
  | cons t ts ih =>
      by_cases hc : t.trade_id = tid ∧ t.is_closed = false
      · simp only [closeInList, if_pos hc, Option.some.injEq] at h
        refine ⟨[], t, ts, by simp, ?_, ?_, hc.1, hc.2, by simp⟩
        · simpa using congrArg Prod.fst h.symm
        · simpa using congrArg Prod.snd h.symm
      · simp only [closeInList, if_neg hc] at h
        rcases hrec : closeInList ts tid e r now with _ | ⟨ts₀, c₀⟩
        · rw [hrec] at h; cases h
        · rw [hrec] at h
          simp only [Option.some.injEq] at h
          obtain ⟨pre, u, post, h1, h2, h3, h4, h5, h6⟩ := ih ts₀ c₀ hrec
          refine ⟨t :: pre, u, post, by simp [h1], ?_, ?_, h4, h5, ?_⟩
          · have : ts' = t :: ts₀ := by
              simpa using congrArg Prod.fst h.symm
            simp [this, h2]
          · have : c = c₀ := by simpa using congrArg Prod.snd h.symm
            rw [this, h3]
          · intro v hv
            rcases List.mem_cons.mp hv with rfl | hv
            · exact hc
            · exact h6 v hv

/-- A freshly closed trade is closed. -/
theorem close_trade_is_closed (t : Trade) (e : ℚ) (r : String) (now : Int) :
    (t.close_trade e r now).is_closed = true := by
  simp [Trade.close_trade, Trade.is_closed]

/-- A second concrete trade (sell side) used by witnesses. -/
def tradeT2 : Trade :=
  { trade_id := "T2", market_id := "M2", strategy := "s", side := "sell",
    quantity := 5, entry_price := 100, entry_time := 0 }

/-- A concrete two-trade ledger with distinct identifiers and nonzero entry
notionals. -/
def paLedger : PerformanceAnalytics :=
  { trades := [tradeT1, tradeT2] }

/-- An open buy trade whose entry notional is zero (entry price 0,
quantity 10): closing it computes a P&L but leaves `pnl_pct` as `None`. -/
def openZeroNotional : Trade :=
  { trade_id := "Z", market_id := "M", strategy := "s", side := "buy",
    quantity := 10, entry_price := 0, entry_time := 0 }

/-- A ledger holding the single open zero-notional trade. -/
def paC1 : PerformanceAnalytics :=
  { trades := [openZeroNotional] }

/-- Demonstration for C1 (code bug) at the failing input: the ledger holds
the single OPEN trade `Z` with zero entry notional, so the claim (and spec
sections 4.2 and 7, which require close to report success or failure
without raising) says closing `Z` returns `true`.  Instead the call closes
the trade and bumps the exit-day bucket with its P&L, and then the
success-log f-string at line 86 raises `TypeError` formatting the `None`
percent return — the call never returns `True`.  A second close after the
mutating raise returns `False` and changes nothing, an unknown identifier
returns `False`, and the nonzero-notional path (trade `T1`) does return
`True`, isolating the bug to the zero-notional log formatting. -/
theorem claim_C1 :
    (openZeroNotional.trade_id = "Z" ∧ openZeroNotional.is_closed = false
      ∧ openZeroNotional.entry_price * (openZeroNotional.quantity : ℚ) = 0)
    ∧ (paC1.close_trade "Z" 0 "manual" 3600).2 = CloseOutcome.typeError
    ∧ (paC1.close_trade "Z" 0 "manual" 3600).2 ≠ CloseOutcome.ret true
    ∧ (paC1.close_trade "Z" 0 "manual" 3600).1.trades.map Trade.is_closed = [true]
    ∧ (paC1.close_trade "Z" 0 "manual" 3600).1.daily_pnl = [(dateKey 3600, 0)]
    ∧ ((paC1.close_trade "Z" 0 "manual" 3600).1.close_trade "Z" 6 "manual" 7200).2 =
        CloseOutcome.ret false
    ∧ ((paC1.close_trade "Z" 0 "manual" 3600).1.close_trade "Z" 6 "manual" 7200).1 =
        (paC1.close_trade "Z" 0 "manual" 3600).1
    ∧ (paC1.close_trade "NOPE" 0 "manual" 3600).2 = CloseOutcome.ret false
    ∧ (paLedger.close_trade "T1" 60 "manual" 3600).2 = CloseOutcome.ret true := by
  have h0 : (0 : ℚ) * ((10 : ℤ) : ℚ) = 0 := by norm_num
  have hpct : (openZeroNotional.close_trade 0 "manual" 3600).pnl_pct = none := by
    simp [Trade.close_trade, openZeroNotional, h0]
  have hpnl : (openZeroNotional.close_trade 0 "manual" 3600).pnl = some 0 := by
    simp only [Trade.close_trade, openZeroNotional, ite_self]
    norm_num
  have hsome : closeInList [openZeroNotional] "Z" 0 "manual" 3600 =
      some ([openZeroNotional.close_trade 0 "manual" 3600],
            openZeroNotional.close_trade 0 "manual" 3600) := by
    simp [closeInList, openZeroNotional, Trade.is_closed]
  have hres1 : (paC1.close_trade "Z" 0 "manual" 3600).1 =
      { trades := [openZeroNotional.close_trade 0 "manual" 3600],
        daily_pnl := [(dateKey 3600, 0)] } := by
    simp [PerformanceAnalytics.close_trade, paC1, hsome, bumpBucket, hpnl]
  have hres2 : (paC1.close_trade "Z" 0 "manual" 3600).2 = CloseOutcome.typeError := by
    simp [PerformanceAnalytics.close_trade, paC1, hsome, hpct]
  have hid2 : (openZeroNotional.close_trade 0 "manual" 3600).is_closed = true :=
    close_trade_is_closed _ _ _ _
  have hnone2 : closeInList [openZeroNotional.close_trade 0 "manual" 3600]
      "Z" 6 "manual" 7200 = none := by
    simp [closeInList, hid2]
  have hsec : ((paC1.close_trade "Z" 0 "manual" 3600).1.close_trade "Z" 6 "manual" 7200) =
      ((paC1.close_trade "Z" 0 "manual" 3600).1, CloseOutcome.ret false) := by
    rw [hres1]
    simp [PerformanceAnalytics.close_trade, hnone2]
  have hnope : closeInList paC1.trades "NOPE" 0 "manual" 3600 = none := by decide
  have hnz : (50 : ℚ) * ((10 : ℤ) : ℚ) ≠ 0 := by norm_num
  have hpctT1 : (tradeT1.close_trade 60 "manual" 3600).pnl_pct.isSome = true := by
    simp [Trade.close_trade, tradeT1, hnz]
  have hsomeT1 : closeInList paLedger.trades "T1" 60 "manual" 3600 =
      some ([tradeT1.close_trade 60 "manual" 3600, tradeT2],
            tradeT1.close_trade 60 "manual" 3600) := by
    simp [closeInList, paLedger, tradeT1, Trade.is_closed]
  refine ⟨⟨rfl, rfl, by norm_num [openZeroNotional]⟩, hres2, ?_, ?_, ?_, ?_, ?_, ?_, ?_⟩
  · rw [hres2]
    simp
  · rw [hres1]
    simp [hid2]
  · rw [hres1]
  · rw [hsec]
  · rw [hsec]
  · simp [PerformanceAnalytics.close_trade, hnope]
  · simp [PerformanceAnalytics.close_trade, hsomeT1, hpctT1]

/-- Closed subset of the ledger: `[t for t in self.trades if t.is_closed]`. -/
def closedList (pa : PerformanceAnalytics) : List Trade :=
  pa.trades.filter (fun t => t.is_closed)

/-- P&L series of the closed trades, in closing (list) order. -/
def closedPnls (pa : PerformanceAnalytics) : List ℚ :=
  (closedList pa).map (fun t => t.pnl.getD 0)

/-- Running cumulative sum starting from accumulator `acc`
(models `np.cumsum`). -/
def cumsumFrom (acc : ℚ) : List ℚ → List ℚ
  | [] => []
  | x :: xs => (acc + x) :: cumsumFrom (acc + x) xs

/-- Models `np.cumsum` of a list. -/
def cumsum (l : List ℚ) : List ℚ :=
  cumsumFrom 0 l

/-- Running maximum continuing from current maximum `m`. -/
def runmaxFrom (m : ℚ) : List ℚ → List ℚ
  | [] => []
  | x :: xs => (max m x) :: runmaxFrom (max m x) xs

/-- Models `np.maximum.accumulate` of a list. -/
def runningMax : List ℚ → List ℚ
  | [] => []
  | x :: xs => x :: runmaxFrom x xs

/-- Models `np.max` of a list, with the 0 default the source uses for the empty
case (`np.max(drawdown) if len(drawdown) > 0 else 0`). -/
def listMax : List ℚ → ℚ
  | [] => 0
  | x :: xs => xs.foldl max x

/-- Models `min` of a list with default 0 (`min([...]) if closed_trades else 0`). -/
def listMin : List ℚ → ℚ
  | [] => 0
  | x :: xs => xs.foldl min x

/-- The per-step drawdown series: running maximum of the cumulative P&L sum
minus the cumulative sum (lines 136-138 of `performance_analytics.py`). -/
def drawdownSeries (pnls : List ℚ) : List ℚ :=
  List.zipWith (fun a b => a - b) (runningMax (cumsum pnls)) (cumsum pnls)

/-- Maximum drawdown as computed by `get_trade_statistics` (lines 135-139). -/
def max_drawdown (pnls : List ℚ) : ℚ :=
  if 0 < (drawdownSeries pnls).length then listMax (drawdownSeries pnls) else 0

/-- Models `np.mean` of a rational list (only applied to non-empty lists by the
source, which guards every use). -/
def npMean (l : List ℚ) : ℚ :=
  l.sum / (l.length : ℚ)

/-- Models `np.mean` as a real number (used where the result feeds `np.std`). -/
noncomputable def npMeanR (l : List ℚ) : ℝ :=
  ((l.map (fun x => (x : ℝ))).sum) / (l.length : ℝ)

/-- Models `np.std` (population standard deviation) of a rational list, as a real
number. -/
noncomputable def npStdR (l : List ℚ) : ℝ :=
  Real.sqrt (((l.map (fun x => ((x : ℝ) - npMeanR l) ^ 2)).sum) / (l.length : ℝ))

open Classical in
/-- The simplified Sharpe ratio of `get_trade_statistics` (lines 126-133):
over the daily P&L bucket values, `mean/std * sqrt 252` when more than one
bucket exists and the deviation is positive, else 0. -/
noncomputable def sharpeOf (daily : List ℚ) : ℝ :=
  if 1 < daily.length then
    if 0 < npStdR daily then (npMeanR daily / npStdR daily) * Real.sqrt 252 else 0
  else 0

/-- The full-statistics record returned by `get_trade_statistics` when at
least one closed trade exists (the keys of the Python result dict). -/
structure FullStats where
  total_trades : Nat
  open_trades : Nat
  closed_trades : Nat
  winning_trades : Nat
  losing_trades : Nat
  win_rate : ℚ
  total_pnl : ℚ
  total_return_pct : ℚ
  avg_win : ℚ
  avg_loss : ℚ
  profit_factor : EReal
  sharpe_ratio : ℝ
  max_drawdown : ℚ
  avg_holding_period_hours : ℚ
  best_trade : ℚ
  worst_trade : ℚ

/-- The possible outcomes of `get_trade_statistics`: the `{'total_trades':
0}` dict, the open-only dict, a `TypeError` raised mid-computation (line
107 compares `t.pnl > 0` and line 112 sums `t.pnl_pct` over the closed
trades — either raises when the field is `None` on some closed trade), or
the full record. -/
inductive TradeStats where
  | onlyTotal
  | noClosed (total_trades open_trades : Nat)
  | typeError
  | full (s : FullStats)

/-- Method `PerformanceAnalytics.get_trade_statistics` (lines 92-162), case
for case: `{'total_trades': 0}` for an empty ledger; the open-only dict
when no trade is closed; `TypeError` when a closed trade's `pnl` is `None`
(the comparison `t.pnl > 0` at line 107 raises) or, failing that, when a
closed trade's `pnl_pct` is `None` (the `sum(t.pnl_pct ...)` at line 112
raises); otherwise the full record.  In the full branch every `getD 0`
default is unreachable (the guards ensure the fields are defined).  Winning
means `pnl > 0`, losing `pnl <= 0`; the profit factor is `+inf` when there
are no losses; the average-holding filter drops falsy (zero) holding
periods, mirroring `if t.holding_period`. -/
noncomputable def PerformanceAnalytics.get_trade_statistics
    (pa : PerformanceAnalytics) : TradeStats :=
  if pa.trades.isEmpty then .onlyTotal
  else
    let closed := closedList pa
    if closed.isEmpty then .noClosed pa.trades.length pa.trades.length
    else if closed.any (fun t => t.pnl.isNone) then .typeError
    else if closed.any (fun t => t.pnl_pct.isNone) then .typeError
    else
      let winning := closed.filter (fun t => decide ((0 : ℚ) < t.pnl.getD 0))
      let losing := closed.filter (fun t => decide (t.pnl.getD 0 ≤ (0 : ℚ)))
      let total_wins := (winning.map (fun t => t.pnl.getD 0)).sum
      let total_losses : ℚ := |(losing.map (fun t => t.pnl.getD 0)).sum|
      let holding := closed.filterMap (fun t =>
        match t.holding_period with
        | some h => if h = 0 then none else some h
        | none => none)
      .full {
        total_trades := pa.trades.length
        open_trades := pa.trades.length - closed.length
        closed_trades := closed.length
        winning_trades := winning.length
        losing_trades := losing.length
        win_rate := (winning.length : ℚ) / (closed.length : ℚ)
        total_pnl := (closed.map (fun t => t.pnl.getD 0)).sum
        total_return_pct := (closed.map (fun t => t.pnl_pct.getD 0)).sum
        avg_win := if winning.isEmpty then 0
                   else npMean (winning.map (fun t => t.pnl.getD 0))
        avg_loss := if losing.isEmpty then 0
                    else npMean (losing.map (fun t => t.pnl.getD 0))
        profit_factor := if 0 < total_losses
                         then (((total_wins / total_losses : ℚ) : ℝ) : EReal)
                         else ⊤
        sharpe_ratio := sharpeOf (pa.daily_pnl.map (fun b => b.2))
        max_drawdown := max_drawdown (closed.map (fun t => t.pnl.getD 0))
        avg_holding_period_hours := if holding.isEmpty then 0 else npMean holding
        best_trade := listMax (closed.map (fun t => t.pnl.getD 0))
        worst_trade := listMin (closed.map (fun t => t.pnl.getD 0)) }

/-- Accessor `stats.get('max_drawdown', 0)`: the `max_drawdown` key with default 0. -/
def statGetMaxDrawdown : TradeStats → ℚ
  | .full s => s.max_drawdown
  | _ => 0

/-- Accessor `stats.get('total_return_pct', 0)`. -/
def statGetTotalReturn : TradeStats → ℚ
  | .full s => s.total_return_pct
  | _ => 0

/-- Accessor `stats.get('sharpe_ratio', 0)`. -/
noncomputable def statGetSharpe : TradeStats → ℝ
  | .full s => s.sharpe_ratio
  | _ => 0

theorem cumsumFrom_length (l : List ℚ) : ∀ acc, (cumsumFrom acc l).length = l.length := by
  induction l with
  | nil => intro acc; rfl
  | cons x xs ih => intro acc; simp [cumsumFrom, ih]

theorem runmaxFrom_length (l : List ℚ) : ∀ m, (runmaxFrom m l).length = l.length := by
  induction l with
  | nil => intro m; rfl
  | cons x xs ih => intro m; simp [runmaxFrom, ih]

theorem runningMax_length (l : List ℚ) : (runningMax l).length = l.length := by
  cases l with
  | nil => rfl
  | cons x xs => simp [runningMax, runmaxFrom_length]

theorem drawdownSeries_length (pnls : List ℚ) :
    (drawdownSeries pnls).length = pnls.length := by
  simp [drawdownSeries, cumsum, runningMax_length, cumsumFrom_length]

/-- On a non-decreasing tail, the running maximum started at the head is the
tail itself. -/
theorem runmaxFrom_of_chain (xs : List ℚ) :
    ∀ m, List.Chain' (· ≤ ·) (m :: xs) → runmaxFrom m xs = xs := by
  induction xs with
  | nil => intro m _; rfl
  | cons x xs ih =>
      intro m h
      rw [List.chain'_cons] at h
      simp only [runmaxFrom, max_eq_right h.1]
      rw [ih x h.2]

/-- The running maximum of a non-decreasing list is the list itself. -/
theorem runningMax_of_chain (l : List ℚ) (h : List.Chain' (· ≤ ·) l) :
    runningMax l = l := by
  cases l with
  | nil => rfl
  | cons x xs => simp [runningMax, runmaxFrom_of_chain xs x h]

theorem zipWith_sub_self (l : List ℚ) :
    List.zipWith (fun a b => a - b) l l = l.map (fun _ => (0 : ℚ)) := by
  induction l with
  | nil => rfl
  | cons x xs ih => simp [ih]

theorem foldl_max_zero (l : List ℚ) (h : ∀ x ∈ l, x = (0 : ℚ)) :
    l.foldl max 0 = 0 := by
  induction l with
  | nil => rfl
  | cons x xs ih =>
      have hx : x = 0 := h x (by simp)
      simp only [List.foldl_cons, hx, max_self]
      exact ih (fun y hy => h y (by simp [hy]))

theorem listMax_zeros (l : List ℚ) (h : ∀ x ∈ l, x = (0 : ℚ)) :
    listMax l = 0 := by
  cases l with
  | nil => rfl
  | cons x xs =>
      have hx : x = 0 := h x (by simp)
      simp only [listMax, hx]
      exact foldl_max_zero xs (fun y hy => h y (by simp [hy]))

theorem closedList_isEmpty_false (pa : PerformanceAnalytics)
    (hne : closedList pa ≠ []) : (closedList pa).isEmpty = false := by
  cases hx : closedList pa with
  | nil => exact absurd hx hne
  | cons a as => rfl

theorem trades_isEmpty_false (pa : PerformanceAnalytics)
    (hne : closedList pa ≠ []) : pa.trades.isEmpty = false := by
  rcases List.exists_mem_of_ne_nil _ hne with ⟨t, ht⟩
  have hmem : t ∈ pa.trades := List.mem_of_mem_filter ht
  cases htl : pa.trades with
  | nil => rw [htl] at hmem; cases hmem
  | cons a as => rfl

/-- With at least one closed trade and every closed trade's P&L fields
defined (as the ledger's own record/close operations guarantee),
`get_trade_statistics` returns the full record, whose drawdown key is the
drawdown formula over the closed trades in trade-list order. -/
theorem get_trade_statistics_full (pa : PerformanceAnalytics)
    (hne : closedList pa ≠ [])
    (hdef : ∀ t ∈ closedList pa, t.pnl ≠ none ∧ t.pnl_pct ≠ none) :
    ∃ s : FullStats, pa.get_trade_statistics = TradeStats.full s ∧
      s.max_drawdown = max_drawdown (closedPnls pa) := by
  have htr := trades_isEmpty_false pa hne
  have hcl := closedList_isEmpty_false pa hne
  have hany1 : (closedList pa).any (fun t => t.pnl.isNone) = false := by
    rw [List.any_eq_false]
    intro t ht
    simp only [Option.isNone_iff_eq_none]
    exact (hdef t ht).1
  have hany2 : (closedList pa).any (fun t => t.pnl_pct.isNone) = false := by
    rw [List.any_eq_false]
    intro t ht
    simp only [Option.isNone_iff_eq_none]
    exact (hdef t ht).2
  cases hs : pa.get_trade_statistics with
  | onlyTotal =>
      exfalso
      simp only [PerformanceAnalytics.get_trade_statistics, htr, hcl, hany1,
        hany2, Bool.false_eq_true, if_false] at hs
      cases hs
  | noClosed a b =>
      exfalso
      simp only [PerformanceAnalytics.get_trade_statistics, htr, hcl, hany1,
        hany2, Bool.false_eq_true, if_false] at hs
      cases hs
  | typeError =>
      exfalso
      simp only [PerformanceAnalytics.get_trade_statistics, htr, hcl, hany1,
        hany2, Bool.false_eq_true, if_false] at hs
      cases hs
  | full s =>
      refine ⟨s, rfl, ?_⟩
      simp only [PerformanceAnalytics.get_trade_statistics, htr, hcl, hany1,
        hany2, Bool.false_eq_true, if_false] at hs
      injection hs with hs
      subst hs
      rfl

/-- Claim C3 (amended): for a ledger with at least one closed trade, every
closed trade carrying defined P&L fields, the max-drawdown key of the
statistics dict is the maximum of (running max of cumulative P&L −
cumulative P&L) over the closed trades' P&L series in TRADE-LIST
(recording) order — the order line 136 iterates, which coincides with
closing order only when trades are closed in recording order.  The value is
0 whenever the cumulative series is non-decreasing, and takes the values 0
and 30 on the spec's two example series. -/
theorem claim_C3 (pa : PerformanceAnalytics) (hne : closedList pa ≠ [])
    (hdef : ∀ t ∈ closedList pa, t.pnl ≠ none ∧ t.pnl_pct ≠ none) :
    statGetMaxDrawdown pa.get_trade_statistics =
      listMax (drawdownSeries (closedPnls pa))
    ∧ (∀ pnls : List ℚ, List.Chain' (· ≤ ·) (cumsum pnls) → max_drawdown pnls = 0)
    ∧ max_drawdown [10, 20, 5] = 0
    ∧ max_drawdown [10, -30, 5] = 30 := by
  have hmono : ∀ pnls : List ℚ, List.Chain' (· ≤ ·) (cumsum pnls) →
      max_drawdown pnls = 0 := by
    intro pnls h
    have hz : drawdownSeries pnls = (cumsum pnls).map (fun _ => (0 : ℚ)) := by
      rw [drawdownSeries, runningMax_of_chain _ h, zipWith_sub_self]
    rw [max_drawdown]
    split
    · exact listMax_zeros _ (by simp [hz])
    · rfl
  refine ⟨?_, hmono, ?_, ?_⟩
  case refine_2 =>
    norm_num [max_drawdown, drawdownSeries, cumsum, cumsumFrom, runningMax,
      runmaxFrom, listMax, max_def]
  case refine_3 =>
    norm_num [max_drawdown, drawdownSeries, cumsum, cumsumFrom, runningMax,
      runmaxFrom, listMax, max_def]
  have hlen : 0 < (drawdownSeries (closedPnls pa)).length := by
    rw [drawdownSeries_length, closedPnls, List.length_map]
    cases hx : closedList pa with
    | nil => exact absurd hx hne
    | cons u us => simp
  obtain ⟨s, hs, hmd⟩ := get_trade_statistics_full pa hne hdef
  rw [hs]
  show s.max_drawdown = listMax (drawdownSeries (closedPnls pa))
  rw [hmd, max_drawdown, if_pos hlen]

/-- A concrete closed trade with the given identifier and realized P&L. -/
def closedTradeOf (id : String) (pnlv : ℚ) : Trade :=
  { trade_id := id, market_id := "M", strategy := "s", side := "buy",
    quantity := 1, entry_price := 1, exit_price := some (1 + pnlv),
    entry_time := 0, exit_time := some 0, pnl := some pnlv,
    pnl_pct := some (pnlv * 100), holding_period := some 0,
    exit_reason := some "manual", confidence := none }

/-- A ledger whose closed-trade P&L series is `[10, -30, 5]`. -/
def paDrawdown : PerformanceAnalytics :=
  { trades := [closedTradeOf "a" 10, closedTradeOf "b" (-30), closedTradeOf "c" 5] }

/-- Witness for C3 on the `[10, -30, 5]` ledger (closed in recording
order, all P&L fields defined). -/
theorem claim_C3_witness :
    (closedList paDrawdown ≠ [] ∧
      ∀ t ∈ closedList paDrawdown, t.pnl ≠ none ∧ t.pnl_pct ≠ none) ∧
    (statGetMaxDrawdown paDrawdown.get_trade_statistics =
        listMax (drawdownSeries (closedPnls paDrawdown))
      ∧ (∀ pnls : List ℚ, List.Chain' (· ≤ ·) (cumsum pnls) → max_drawdown pnls = 0)
      ∧ max_drawdown [10, 20, 5] = 0
      ∧ max_drawdown [10, -30, 5] = 30) :=
  ⟨⟨by decide, by decide⟩, claim_C3 paDrawdown (by decide) (by decide)⟩

/-- The comprehension `[t.pnl_pct for t in closed_trades if t.pnl_pct]`:
keeps a percent return only when it is truthy, i.e. present AND nonzero
(Python treats `0.0` as falsy). -/
def truthyPcts (ts : List Trade) : List ℚ :=
  ts.filterMap (fun t =>
    match t.pnl_pct with
    | some x => if x = 0 then none else some x
    | none => none)

/-- Number of closed trades whose percent return is defined (non-null),
regardless of its value — the reading the claim uses. -/
def definedPctCount (pa : PerformanceAnalytics) : Nat :=
  ((closedList pa).filterMap (fun t => t.pnl_pct)).length

/-- The numeric payload of `get_risk_adjusted_metrics` (ratios may be
`float('inf')`, hence `EReal`). -/
structure RiskMetrics where
  sortino_ratio : EReal
  calmar_ratio : EReal
  omega_ratio : EReal
  sharpe_ratio : ℝ
  max_drawdown : ℚ
  total_return : ℚ

/-- Result of `get_risk_adjusted_metrics`: the `{'error': ...}` dict, a
`TypeError` propagating out of the `get_trade_statistics()` call at line
293 (see `TradeStats.typeError`), or the numeric metrics dict. -/
inductive RiskResult where
  | error (msg : String)
  | raised
  | metrics (m : RiskMetrics)

/-- Whether the result is the explicit insufficient-data dict. -/
def RiskResult.isErr : RiskResult → Bool
  | .error _ => true
  | _ => false

/-- Whether the result is the numeric metrics dict. -/
def RiskResult.isMetrics : RiskResult → Bool
  | .metrics _ => true
  | _ => false

/-- Method `PerformanceAnalytics.get_risk_adjusted_metrics` (lines
269-314): error when fewer than 2 closed trades; error when fewer than 2
truthy percent returns; then the Sortino numerator data is computed from
`returns` alone, and the `get_trade_statistics()` call at line 293 is made
— if that call raises `TypeError` (closed trade with a `None` P&L field)
the exception propagates out of this method; otherwise the Sortino /
Calmar / Omega / Sharpe record follows, with `+inf` sentinels for the
no-downside, no-drawdown and no-loss cases. -/
noncomputable def PerformanceAnalytics.get_risk_adjusted_metrics
    (pa : PerformanceAnalytics) : RiskResult :=
  let closed := closedList pa
  if closed.length < 2 then .error "Need at least 2 closed trades for risk metrics"
  else
    let returns := truthyPcts closed
    if returns.length < 2 then .error "Insufficient return data"
    else
      let target_return : ℚ := 0
      let downside := returns.filter (fun x => decide (x < target_return))
      let sortino : EReal :=
        if 0 < downside.length then
          (((npMeanR returns - ((target_return : ℚ) : ℝ)) / npStdR downside : ℝ) : EReal)
        else ⊤
      match pa.get_trade_statistics with
      | TradeStats.typeError => RiskResult.raised
      | stats =>
          let md : ℚ := |statGetMaxDrawdown stats|
          let total_return := statGetTotalReturn stats
          let calmar : EReal :=
            if 0 < md then (((total_return / md : ℚ) : ℝ) : EReal) else ⊤
          let threshold : ℚ := 0
          let gains := returns.filter (fun x => decide (threshold < x))
          let losses := returns.filter (fun x => decide (x ≤ threshold))
          let omega : EReal :=
            if 0 < losses.length then
              ((((gains.map (fun x => x - threshold)).sum /
                  |(losses.map (fun x => x - threshold)).sum| : ℚ) : ℝ) : EReal)
            else ⊤
          RiskResult.metrics {
            sortino_ratio := sortino
            calmar_ratio := calmar
            omega_ratio := omega
            sharpe_ratio := statGetSharpe stats
            max_drawdown := md
            total_return := total_return }

/-- There are at most as many truthy percent returns as defined ones. -/
theorem truthyPcts_length_le (ts : List Trade) :
    (truthyPcts ts).length ≤ (ts.filterMap (fun t => t.pnl_pct)).length := by
  induction ts with
  | nil => simp [truthyPcts]
  | cons t ts ih =>
      simp only [truthyPcts, List.filterMap_cons] at *
      cases hp : t.pnl_pct with
      | none => simpa using ih
      | some x =>
          by_cases hx : x = 0
          · simp only [hx, if_pos rfl, List.length_cons]
            exact Nat.le_succ_of_le ih
          · simp only [if_neg hx, List.length_cons]
            exact Nat.succ_le_succ ih

/-- Claim C5 (amended): the risk-metrics query returns the explicit
insufficient-data dict when fewer than 2 closed trades have a defined
percent return — in particular with exactly 1 closed trade — and, more
precisely, whenever fewer than 2 closed trades have a truthy (defined AND
nonzero) percent return.  With at least 2 truthy percent returns it
returns the numeric metrics record PROVIDED every closed trade's P&L
fields are defined; if some closed trade has a `None` P&L or percent
return, the `get_trade_statistics()` call at line 293 raises `TypeError`
(lines 107/112), which propagates instead of any result dict. -/
theorem claim_C5 (pa : PerformanceAnalytics) :
    (definedPctCount pa < 2 → (pa.get_risk_adjusted_metrics).isErr = true)
    ∧ ((closedList pa).length = 1 → (pa.get_risk_adjusted_metrics).isErr = true)
    ∧ ((truthyPcts (closedList pa)).length < 2 →
        (pa.get_risk_adjusted_metrics).isErr = true)
    ∧ (2 ≤ (truthyPcts (closedList pa)).length →
        (∀ t ∈ closedList pa, t.pnl ≠ none ∧ t.pnl_pct ≠ none) →
        ∃ m, pa.get_risk_adjusted_metrics = RiskResult.metrics m)
    ∧ (2 ≤ (truthyPcts (closedList pa)).length →
        (∃ t ∈ closedList pa, t.pnl = none ∨ t.pnl_pct = none) →
        pa.get_risk_adjusted_metrics = RiskResult.raised) := by
  have hb : ((closedList pa).filterMap (fun t => t.pnl_pct)).length ≤
      (closedList pa).length := List.length_filterMap_le _ _
  have ha := truthyPcts_length_le (closedList pa)
  have key : (truthyPcts (closedList pa)).length < 2 →
      (pa.get_risk_adjusted_metrics).isErr = true := by
    intro hlt
    by_cases h1 : (closedList pa).length < 2
    · simp [PerformanceAnalytics.get_risk_adjusted_metrics, if_pos h1,
        RiskResult.isErr]
    · simp only [PerformanceAnalytics.get_risk_adjusted_metrics, if_neg h1,
        if_pos hlt, RiskResult.isErr]
  have hnonempty : 2 ≤ (truthyPcts (closedList pa)).length →
      closedList pa ≠ [] := by
    intro h2 h0
    rw [h0] at h2
    simp only [truthyPcts, List.filterMap_nil, List.length_nil] at h2
    omega
  refine ⟨?_, ?_, key, ?_, ?_⟩
  · intro hdef
    apply key
    have := truthyPcts_length_le (closedList pa)
    rw [definedPctCount] at hdef
    omega
  · intro h1
    apply key
    omega
  · intro h2 hdef
    have h1 : ¬ ((closedList pa).length < 2) := by omega
    have hlt : ¬ ((truthyPcts (closedList pa)).length < 2) := by omega
    obtain ⟨s, hs, -⟩ := get_trade_statistics_full pa (hnonempty h2) hdef
    have hm : (pa.get_risk_adjusted_metrics).isMetrics = true := by
      simp only [PerformanceAnalytics.get_risk_adjusted_metrics, if_neg h1,
        if_neg hlt, hs, RiskResult.isMetrics]
    cases hr : pa.get_risk_adjusted_metrics with
    | error msg => rw [hr] at hm; simp [RiskResult.isMetrics] at hm
    | raised => rw [hr] at hm; simp [RiskResult.isMetrics] at hm
    | metrics m => exact ⟨m, rfl⟩
  · intro h2 hex
    have h1 : ¬ ((closedList pa).length < 2) := by omega
    have hlt : ¬ ((truthyPcts (closedList pa)).length < 2) := by omega
    have hne := hnonempty h2
    have htr := trades_isEmpty_false pa hne
    have hcl := closedList_isEmpty_false pa hne
    have hst : pa.get_trade_statistics = TradeStats.typeError := by
      by_cases ha1 : (closedList pa).any (fun t => t.pnl.isNone) = true
      · simp [PerformanceAnalytics.get_trade_statistics, htr, hcl, ha1]
      · have ha1f : (closedList pa).any (fun t => t.pnl.isNone) = false := by
          revert ha1
          cases (closedList pa).any (fun t => t.pnl.isNone) <;> simp
        have ha2 : (closedList pa).any (fun t => t.pnl_pct.isNone) = true := by
          obtain ⟨t, ht, hcase⟩ := hex
          rcases hcase with hpnl | hpct
          · exact absurd (List.any_eq_true.mpr ⟨t, ht, by simp [hpnl]⟩) ha1
          · exact List.any_eq_true.mpr ⟨t, ht, by simp [hpct]⟩
        simp [PerformanceAnalytics.get_trade_statistics, htr, hcl, ha1f, ha2]
    simp only [PerformanceAnalytics.get_risk_adjusted_metrics, if_neg h1,
      if_neg hlt, hst]

/-- A closed trade whose percent return is defined and exactly zero
(entry 50, exit 50, quantity 10). -/
def zeroPctTrade (id : String) : Trade :=
  { trade_id := id, market_id := "M", strategy := "s", side := "buy",
    quantity := 10, entry_price := 50, exit_price := some 50,
    entry_time := 0, exit_time := some 0, pnl := some 0, pnl_pct := some 0,
    holding_period := some 1, exit_reason := some "manual", confidence := none }

/-- A ledger with two closed trades, both with a defined (zero) percent
return. -/
def paZeroPct : PerformanceAnalytics :=
  { trades := [zeroPctTrade "a", zeroPctTrade "b"] }

/-- Counterexample to C5 as stated: this ledger has 2 closed trades with a
defined percent return, yet the query returns the insufficient-data dict,
because Python's truthiness filter drops the zero percent returns. -/
theorem claim_C5_counterexample :
    2 ≤ definedPctCount paZeroPct ∧
    (paZeroPct.get_risk_adjusted_metrics).isErr = true := by
  constructor
  · decide
  · have h1 : ¬ ((closedList paZeroPct).length < 2) := by decide
    have h2 : (truthyPcts (closedList paZeroPct)).length < 2 := by decide
    simp only [PerformanceAnalytics.get_risk_adjusted_metrics, if_neg h1,
      if_pos h2, RiskResult.isErr]

/-- A ledger with exactly one closed trade. -/
def paOneClosed : PerformanceAnalytics :=
  { trades := [closedTradeOf "x" 10] }

/-- Witness for C5 at a ledger with exactly 1 closed trade: the query
reports insufficient data. -/
theorem claim_C5_witness :
    (closedList paOneClosed).length = 1 ∧
    (paOneClosed.get_risk_adjusted_metrics).isErr = true :=
  ⟨by decide, (claim_C5 paOneClosed).2.1 (by decide)⟩

/-- Models `exit_time.strftime('%Y-%m-%d')` as used for time bucketing:
calendar-day granularity. -/
def fmtDay (t : Int) : String :=
  "D" ++ toString (t / 86400)

/-- Models `exit_time.strftime('%Y-%W')`: calendar-week granularity. -/
def fmtWeek (t : Int) : String :=
  "W" ++ toString (t / 604800)

/-- Models `exit_time.strftime('%Y-%m')`: calendar-month granularity. -/
def fmtMonth (t : Int) : String :=
  "M" ++ toString (t / 2592000)

/-- The key-selection chain of `get_time_based_performance` (lines 242-250):
`daily`, `weekly`, `monthly`, and the `else` branch that reuses the daily
format for any other period string. -/
def periodKey (period : String) (t : Int) : String :=
  if period = "daily" then fmtDay t
  else if period = "weekly" then fmtWeek t
  else if period = "monthly" then fmtMonth t
  else fmtDay t

/-- Per-bucket metrics of `get_time_based_performance`. -/
structure PeriodPerf where
  total_pnl : ℚ
  trade_count : Nat
  win_rate : ℚ
  avg_pnl : ℚ
deriving DecidableEq, Repr

/-- Models `defaultdict(list)` append: add `t` to the bucket keyed `k`, preserving
insertion order of keys. -/
def groupAdd (gs : List (String × List Trade)) (k : String) (t : Trade) :
    List (String × List Trade) :=
  match gs with
  | [] => [(k, [t])]
  | (k', ts) :: rest =>
      if k' = k then (k', ts ++ [t]) :: rest else (k', ts) :: groupAdd rest k t

/-- Group trades by a key function, in iteration order. -/
def groupByKey (key : Trade → String) (ts : List Trade) :
    List (String × List Trade) :=
  ts.foldl (fun gs t => groupAdd gs (key t) t) []

/-- The metrics computed for one time bucket (lines 256-265). -/
def bucketPerf (ts : List Trade) : PeriodPerf :=
  let pnl := (ts.map (fun t => t.pnl.getD 0)).sum
  let winning := (ts.filter (fun t => decide ((0 : ℚ) < t.pnl.getD 0))).length
  { total_pnl := pnl
    trade_count := ts.length
    win_rate := if ts.isEmpty then 0 else (winning : ℚ) / (ts.length : ℚ)
    avg_pnl := if ts.isEmpty then 0 else pnl / (ts.length : ℚ) }

/-- Method `PerformanceAnalytics.get_time_based_performance(period)` (lines
227-267): closed trades with an exit time, grouped by the period key of
their exit time, each bucket reduced to its metrics. -/
def PerformanceAnalytics.get_time_based_performance
    (pa : PerformanceAnalytics) (period : String) : List (String × PeriodPerf) :=
  let closed := pa.trades.filter (fun t => t.is_closed && t.exit_time.isSome)
  if closed.isEmpty then []
  else
    (groupByKey (fun t => periodKey period (t.exit_time.getD 0)) closed).map
      (fun g => (g.1, bucketPerf g.2))

/-- Claim C9: any period string other than `daily`, `weekly` or `monthly`
falls back to the daily key format, so the query returns exactly the same
result as with `daily`. -/
theorem claim_C9 (pa : PerformanceAnalytics) (period : String)
    (h1 : period ≠ "daily") (h2 : period ≠ "weekly") (h3 : period ≠ "monthly") :
    pa.get_time_based_performance period = pa.get_time_based_performance "daily" := by
  have hk : (fun t : Trade => periodKey period (t.exit_time.getD 0)) =
      (fun t : Trade => periodKey "daily" (t.exit_time.getD 0)) := by
    funext t
    simp [periodKey, h1, h2, h3]
  simp only [PerformanceAnalytics.get_time_based_performance, hk]

/-- Witness for C9: the unknown period `hourly` on a concrete one-trade
ledger yields the daily bucketing. -/
theorem claim_C9_witness :
    ("hourly" : String) ≠ "daily" ∧
    paOneClosed.get_time_based_performance "hourly" =
      paOneClosed.get_time_based_performance "daily" :=
  ⟨by decide, claim_C9 paOneClosed "hourly" (by decide) (by decide) (by decide)⟩

/-- The two mutating ledger operations: recording a trade and closing one
through `PerformanceAnalytics.close_trade`. -/
inductive LedgerOp where
  | record (t : Trade)
  | close (tid : String) (e : ℚ) (r : String) (now : Int)
deriving DecidableEq

/-- Apply one ledger operation. -/
def applyOp (pa : PerformanceAnalytics) : LedgerOp → PerformanceAnalytics
  | .record t => pa.record_trade t
  | .close tid e r now => (pa.close_trade tid e r now).1

/-- Apply a sequence of ledger operations. -/
def runOps (pa : PerformanceAnalytics) : List LedgerOp → PerformanceAnalytics
  | [] => pa
  | op :: ops => runOps (applyOp pa op) ops

/-- An operation records only open trades (no exit fields set); closes are
unrestricted. -/
def recordsOpen : LedgerOp → Bool
  | .record t => !t.is_closed
  | .close _ _ _ _ => true

/-- Sum of all daily P&L bucket values. -/
def bucketSum (b : List (String × ℚ)) : ℚ :=
  (b.map (fun p => p.2)).sum

/-- Total P&L over the closed trades of a list. -/
def closedPnlSum (ts : List Trade) : ℚ :=
  ((ts.filter (fun t => t.is_closed)).map (fun t => t.pnl.getD 0)).sum

/-- A fresh ledger (`PerformanceAnalytics.__init__`). -/
def initLedger : PerformanceAnalytics := {}

theorem bumpBucket_sum (b : List (String × ℚ)) (k : String) (v : ℚ) :
    bucketSum (bumpBucket b k v) = bucketSum b + v := by
  induction b with
  | nil => simp [bumpBucket, bucketSum]
  | cons p rest ih =>
      rcases p with ⟨k', v'⟩
      by_cases h : k' = k
      · simp [bumpBucket, h, bucketSum]
        ring
      · simp [bumpBucket, h, bucketSum] at *
        rw [ih]
        ring

theorem closedPnlSum_append (a b : List Trade) :
    closedPnlSum (a ++ b) = closedPnlSum a + closedPnlSum b := by
  simp [closedPnlSum, List.filter_append]

/-- A successful scan raises the closed-trade P&L total by exactly the
freshly closed trade's P&L. -/
theorem closeInList_sum (ts : List Trade) (tid : String) (e : ℚ) (r : String)
    (n : Int) (ts' : List Trade) (c : Trade)
    (h : closeInList ts tid e r n = some (ts', c)) :
    closedPnlSum ts' = closedPnlSum ts + c.pnl.getD 0 := by
  obtain ⟨pre, t, post, h1, h2, h3, _, h5, _⟩ :=
    closeInList_eq_some_spec ts tid e r n ts' c h
  have hopen : closedPnlSum (t :: post) = closedPnlSum post := by
    simp [closedPnlSum, List.filter_cons, h5]
  have hcc : c.is_closed = true := by
    rw [h3]; exact close_trade_is_closed t e r n
  have hclosed : closedPnlSum (c :: post) =
      c.pnl.getD 0 + closedPnlSum post := by
    simp [closedPnlSum, List.filter_cons, hcc]
  rw [h1, h2, ← h3]
  rw [closedPnlSum_append, closedPnlSum_append, hopen, hclosed]
  ring

/-- One well-formed operation preserves the bucket-total invariant. -/
theorem applyOp_inv (pa : PerformanceAnalytics) (op : LedgerOp)
    (hop : recordsOpen op = true)
    (hinv : bucketSum pa.daily_pnl = closedPnlSum pa.trades) :
    bucketSum (applyOp pa op).daily_pnl = closedPnlSum (applyOp pa op).trades := by
  cases op with
  | record t =>
      have hto : t.is_closed = false := by
        simpa [recordsOpen] using hop
      simp only [applyOp, PerformanceAnalytics.record_trade]
      rw [closedPnlSum_append]
      have : closedPnlSum [t] = 0 := by
        simp [closedPnlSum, List.filter_cons, hto]
      rw [this, add_zero]
      exact hinv
  | close tid e r n =>
      simp only [applyOp, PerformanceAnalytics.close_trade]
      rcases hs : closeInList pa.trades tid e r n with _ | ⟨ts', c⟩
      · exact hinv
      · simp only
        rw [bumpBucket_sum, closeInList_sum pa.trades tid e r n ts' c hs, hinv]

theorem runOps_inv (ops : List LedgerOp) :
    ∀ pa : PerformanceAnalytics, (∀ op ∈ ops, recordsOpen op = true) →
      bucketSum pa.daily_pnl = closedPnlSum pa.trades →
      bucketSum (runOps pa ops).daily_pnl = closedPnlSum (runOps pa ops).trades := by
  induction ops with
  | nil => intro pa _ hinv; exact hinv
  | cons op ops ih =>
      intro pa hops hinv
      exact ih (applyOp pa op) (fun o ho => hops o (by simp [ho]))
        (applyOp_inv pa op (hops op (by simp)) hinv)

/-- Claim C10: starting from a fresh ledger, after any sequence of records
of open trades and closes, the sum of the daily P&L buckets equals the total
P&L of the closed trades; a successful close adds exactly the closed trade's
P&L into the bucket of its exit day; recording never touches the buckets and
a failed close changes nothing. -/
theorem claim_C10 (ops : List LedgerOp)
    (hops : ∀ op ∈ ops, recordsOpen op = true) :
    bucketSum (runOps initLedger ops).daily_pnl =
      closedPnlSum (runOps initLedger ops).trades
    ∧ (∀ (pa : PerformanceAnalytics) (t : Trade),
        (pa.record_trade t).daily_pnl = pa.daily_pnl)
    ∧ (∀ (pa : PerformanceAnalytics) (tid : String) (e : ℚ) (r : String)
        (n : Int) (ts' : List Trade) (c : Trade),
        closeInList pa.trades tid e r n = some (ts', c) →
        (pa.close_trade tid e r n).1.daily_pnl =
          bumpBucket pa.daily_pnl (dateKey n) (c.pnl.getD 0))
    ∧ (∀ (pa : PerformanceAnalytics) (tid : String) (e : ℚ) (r : String)
        (n : Int), (pa.close_trade tid e r n).2 = CloseOutcome.ret false →
        (pa.close_trade tid e r n).1 = pa) := by
  refine ⟨runOps_inv ops initLedger hops rfl, fun pa t => rfl, ?_, ?_⟩
  · intro pa tid e r n ts' c h
    simp [PerformanceAnalytics.close_trade, h]
  · intro pa tid e r n h
    rcases hs : closeInList pa.trades tid e r n with _ | ⟨ts', c⟩
    · simp [PerformanceAnalytics.close_trade, hs]
    · rw [PerformanceAnalytics.close_trade, hs] at h
      by_cases hc : c.pnl_pct.isSome = true
      · simp [hc] at h
      · simp [hc] at h

/-- The operation sequence of the spec's scenario: record two open trades,
close both. -/
def opsDemo : List LedgerOp :=
  [.record tradeT1, .record tradeT2,
   .close "T1" 60 "manual" 3600, .close "T2" 90 "manual" 7200]

/-- Witness for C10 on the scenario sequence. -/
theorem claim_C10_witness :
    (∀ op ∈ opsDemo, recordsOpen op = true) ∧
    (bucketSum (runOps initLedger opsDemo).daily_pnl =
      closedPnlSum (runOps initLedger opsDemo).trades
    ∧ (∀ (pa : PerformanceAnalytics) (t : Trade),
        (pa.record_trade t).daily_pnl = pa.daily_pnl)
    ∧ (∀ (pa : PerformanceAnalytics) (tid : String) (e : ℚ) (r : String)
        (n : Int) (ts' : List Trade) (c : Trade),
        closeInList pa.trades tid e r n = some (ts', c) →
        (pa.close_trade tid e r n).1.daily_pnl =
          bumpBucket pa.daily_pnl (dateKey n) (c.pnl.getD 0))
    ∧ (∀ (pa : PerformanceAnalytics) (tid : String) (e : ℚ) (r : String)
        (n : Int), (pa.close_trade tid e r n).2 = CloseOutcome.ret false →
        (pa.close_trade tid e r n).1 = pa)) :=
  ⟨by decide, claim_C10 opsDemo (by decide)⟩

/-- A trade recorded FIRST but closed SECOND: buy 1 unit at entry 1, closed
at 11 at time 200, so P&L +10. -/
def tradeClosedA : Trade :=
  { trade_id := "a", market_id := "M", strategy := "s", side := "buy",
    quantity := 1, entry_price := 1, exit_price := some 11, entry_time := 0,
    exit_time := some 200, pnl := some 10, pnl_pct := some 1000,
    holding_period := some 1, exit_reason := some "manual", confidence := none }

/-- A trade recorded SECOND but closed FIRST: sell 30 units at entry 1,
closed at 2 at time 100, so P&L −30. -/
def tradeClosedB : Trade :=
  { trade_id := "b", market_id := "M", strategy := "s", side := "sell",
    quantity := 30, entry_price := 1, exit_price := some 2, entry_time := 0,
    exit_time := some 100, pnl := some (-30), pnl_pct := some (-100),
    holding_period := some 1, exit_reason := some "manual", confidence := none }

/-- The ledger after: record `a`, record `b`, close `b` (exit time 100,
P&L −30), then close `a` (exit time 200, P&L +10).  The trade list holds
the RECORDING order `[a, b]`, so the code's P&L series is `[10, −30]`,
while the CLOSING order (by exit time) is `b` before `a`, series
`[−30, 10]`. -/
def paC3 : PerformanceAnalytics :=
  { trades := [tradeClosedA, tradeClosedB],
    daily_pnl := [(dateKey 100, -20)] }

/-- Counterexample to C3 as stated: the reported maximum drawdown is
computed over the trade-list (recording) order, not over closing order.
Here `b` (P&L −30, exit time 100) closed before `a` (P&L +10, exit time
200), so the closing-order P&L series is `[−30, 10]` with maximum drawdown
0, yet the statistics dict reports 30, the drawdown of the recording-order
series `[10, −30]`. -/
theorem claim_C3_counterexample :
    (closedList paC3).map (fun t => (t.trade_id, t.exit_time, t.pnl)) =
      [("a", some 200, some 10), ("b", some 100, some (-30))]
    ∧ statGetMaxDrawdown paC3.get_trade_statistics = 30
    ∧ max_drawdown [-30, 10] = 0
    ∧ statGetMaxDrawdown paC3.get_trade_statistics ≠ max_drawdown [-30, 10] := by
  have hne : closedList paC3 ≠ [] := by decide
  have hdef : ∀ t ∈ closedList paC3, t.pnl ≠ none ∧ t.pnl_pct ≠ none := by decide
  obtain ⟨s, hs, hmd⟩ := get_trade_statistics_full paC3 hne hdef
  have hpnls : closedPnls paC3 = [10, -30] := by decide
  have h30 : statGetMaxDrawdown paC3.get_trade_statistics = 30 := by
    rw [hs]
    show s.max_drawdown = 30
    rw [hmd, hpnls]
    norm_num [max_drawdown, drawdownSeries, cumsum, cumsumFrom, runningMax,
      runmaxFrom, listMax, max_def]
  have hzero : max_drawdown [-30, 10] = 0 := by
    norm_num [max_drawdown, drawdownSeries, cumsum, cumsumFrom, runningMax,
      runmaxFrom, listMax, max_def]
  refine ⟨by decide, h30, hzero, ?_⟩
  rw [h30, hzero]
  norm_num

/-- One market snapshot, mirroring the `MarketData` dataclass of
`market_data_streamer.py` (`last_updated` always set by `__post_init__`,
`price_history` defaulted to a fresh list). -/
structure MarketData where
  market_id : String
  title : String
  current_price : ℚ
  previous_price : Option ℚ := none
  volume : Option Int := none
  open_interest : Option Int := none
  last_updated : Int
  price_history : List ℚ := []
  volatility : Option ℚ := none
deriving DecidableEq, Repr

/-- One raw entry of the feed's `markets` list; `market.get(...)` calls are
modelled by optional fields. -/
structure RawMarket where
  id : Option String := none
  title : Option String := none
  current_price : Option ℚ := none
  volume : Option Int := none
  open_interest : Option Int := none
deriving DecidableEq, Repr

/-- History update of an existing snapshot (lines 140-143):
`append` then `pop(0)` when the length exceeds 100. -/
def evictPush (h : List ℚ) (p : ℚ) : List ℚ :=
  if 100 < (h ++ [p]).length then (h ++ [p]).tail else h ++ [p]

/-- In-place update of an existing snapshot (lines 134-143): shift current
price into previous, set the new price and timestamp, push onto the bounded
history.  The volatility field is NOT written here: the volatility block
(lines 157-163) references `np`, which `market_data_streamer.py` never
imports, so evaluating it raises `NameError` before any assignment. -/
def updateExisting (md : MarketData) (price : ℚ) (now : Int) : MarketData :=
  { md with
    previous_price := some md.current_price
    current_price := price
    last_updated := now
    price_history := evictPush md.price_history price }

/-- Creation of a snapshot on first observation (lines 145-155). -/
def newSnapshot (mid : String) (raw : RawMarket) (price : ℚ) (now : Int) :
    MarketData :=
  { market_id := mid
    title := raw.title.getD ""
    current_price := price
    volume := raw.volume
    open_interest := raw.open_interest
    last_updated := now
    price_history := [price] }

/-- First-match lookup in the identifier → reference table (Python dict
membership and indexing; keys are unique because entries are only appended
when absent). -/
def lookupRef : List (String × Nat) → String → Option Nat
  | [], _ => none
  | (k, r) :: rest, mid => if k = mid then some r else lookupRef rest mid

/-- The per-tick market loop (lines 123-165) over an explicit object store:
the streamer's dict maps identifiers to references into `store`, so in-place
mutation of a shared snapshot is `List.set` at its reference.  Entries
without an identifier or price are skipped.  For an existing market the
snapshot is updated in place; then, when its history exceeds 10 points, the
volatility block's unbound `np` raises `NameError`, aborting the whole tick
(fourth component `true`): mutations so far persist, later markets are not
processed and the collected identifier list is discarded by the caller.
Returns (store, table, updated identifiers, aborted). -/
def processMarkets (now : Int) :
    List RawMarket → List MarketData → List (String × Nat) →
    List MarketData × List (String × Nat) × List String × Bool
  | [], store, table => (store, table, [], false)
  | raw :: rest, store, table =>
    match raw.id with
    | none => processMarkets now rest store table
    | some mid =>
      match raw.current_price with
      | none => processMarkets now rest store table
      | some price =>
        match lookupRef table mid with
        | some r =>
          match store[r]? with
          | some md =>
            let md' := updateExisting md price now
            if 10 < md'.price_history.length then
              (store.set r md', table, [], true)
            else
              let res := processMarkets now rest (store.set r md') table
              (res.1, res.2.1, mid :: res.2.2.1, res.2.2.2)
          | none => processMarkets now rest store table
        | none =>
          let md' := newSnapshot mid raw price now
          let res := processMarkets now rest (store ++ [md'])
            (table ++ [(mid, store.length)])
          (res.1, res.2.1, mid :: res.2.2.1, res.2.2.2)

/-- The `MarketDataStreamer` state shared between the polling worker and
callers: the snapshot store, the identifier → reference table
(`markets_data`), and `last_update`. -/
structure SState where
  store : List MarketData
  table : List (String × Nat)
  last_update : Int
deriving DecidableEq, Repr

/-- One `_update_market_data` call (lines 111-174).  The feed argument
models `api_client.get_markets()`: `Except.error` when the fetch raises,
`.ok none` when the result is falsy or lacks the `markets` key, `.ok (some
raws)` otherwise (the loop caps at the first 20 entries).  The blanket
`except Exception` at line 173 swallows every exception, so the operation
is total: on a fetch error nothing is touched; on an aborted loop the store
mutations persist but `last_update` is not refreshed and no notification
fires.  The second component is the payload passed to subscribers (`none`
when `_notify_subscribers` is not invoked). -/
def tick (s : SState) (feed : Except Unit (Option (List RawMarket)))
    (now : Int) : SState × Option (List String) :=
  match feed with
  | .error _ => (s, none)
  | .ok none => (s, none)
  | .ok (some raws) =>
    let res := processMarkets now (raws.take 20) s.store s.table
    if res.2.2.2 then
      ({ store := res.1, table := res.2.1, last_update := s.last_update }, none)
    else
      ({ store := res.1, table := res.2.1, last_update := now },
       if res.2.2.1.isEmpty then none else some res.2.2.1)

/-- A sequence of ticks. -/
def runTicks (s : SState) :
    List ((Except Unit (Option (List RawMarket))) × Int) → SState
  | [] => s
  | (f, n) :: rest => runTicks (tick s f n).1 rest

/-- Fresh streamer state (`__init__`: empty dict, `last_update = now`). -/
def initState (t0 : Int) : SState :=
  { store := [], table := [], last_update := t0 }

/-- What a holder of a table value observes when dereferencing it against
the (possibly later-mutated) object store: `get_all_markets_data` returns
`self.markets_data.copy()`, a new dict with the SAME snapshot objects, so a
caller's view is its table value dereferenced against the current store. -/
def deref (store : List MarketData) (tbl : List (String × Nat)) :
    List (String × Option MarketData) :=
  tbl.map (fun p => (p.1, store.get? p.2))

/-- Claim C6: a tick whose market fetch raises leaves the whole streamer
state (every snapshot, the table and `last_update`) unchanged, notifies no
subscriber, and — being a total function thanks to the blanket handler —
propagates nothing. -/
theorem claim_C6 (s : SState) (now : Int) :
    tick s (Except.error ()) now = (s, none) := rfl

theorem evictPush_length_le (h : List ℚ) (p : ℚ) (hh : h.length ≤ 100) :
    (evictPush h p).length ≤ 100 := by
  rw [evictPush]
  by_cases hc : 100 < (h ++ [p]).length
  · rw [if_pos hc]
    simp only [List.length_tail, List.length_append, List.length_cons,
      List.length_nil] at *
    omega
  · rw [if_neg hc]
    simp only [List.length_append, List.length_cons, List.length_nil] at *
    omega

/-- When the history already holds 100 points, pushing evicts the oldest. -/
theorem evictPush_evicts_oldest (h : List ℚ) (p : ℚ) (hh : h.length = 100) :
    evictPush h p = h.tail ++ [p] := by
  cases h with
  | nil => simp at hh
  | cons a as =>
      rw [evictPush, if_pos]
      · simp
      · simp only [List.length_append, List.length_cons] at *
        omega

theorem processMarkets_store_ok (now : Int) (raws : List RawMarket) :
    ∀ (store : List MarketData) (table : List (String × Nat)),
      (∀ md ∈ store, md.price_history.length ≤ 100) →
      ∀ md ∈ (processMarkets now raws store table).1,
        md.price_history.length ≤ 100 := by
  induction raws with
  | nil => intro store table hok; simpa [processMarkets] using hok
  | cons raw rest ih =>
      intro store table hok
      cases hid : raw.id with
      | none => simpa [processMarkets, hid] using ih store table hok
      | some mid =>
        cases hp : raw.current_price with
        | none => simpa [processMarkets, hid, hp] using ih store table hok
        | some price =>
          cases hl : lookupRef table mid with
          | some r =>
            cases hg : store[r]? with
            | some md =>
                have hmd : md ∈ store := by
                  rcases List.getElem?_eq_some_iff.mp hg with ⟨hr, hget⟩
                  exact hget ▸ List.getElem_mem hr
                have hset : ∀ u ∈ store.set r (updateExisting md price now),
                    u.price_history.length ≤ 100 := by
                  intro u hu
                  rcases List.mem_or_eq_of_mem_set hu with hu' | rfl
                  · exact hok u hu'
                  · exact evictPush_length_le _ _ (hok md hmd)
                by_cases hlen : 10 < (updateExisting md price now).price_history.length
                · simpa [processMarkets, hid, hp, hl, hg, hlen] using hset
                · simpa [processMarkets, hid, hp, hl, hg, hlen] using
                    ih (store.set r (updateExisting md price now)) table hset
            | none => simpa [processMarkets, hid, hp, hl, hg] using ih store table hok
          | none =>
            have hnew : ∀ u ∈ store ++ [newSnapshot mid raw price now],
                u.price_history.length ≤ 100 := by
              intro u hu
              rcases List.mem_append.mp hu with hu' | hu'
              · exact hok u hu'
              · simp only [List.mem_singleton] at hu'
                subst hu'
                simp [newSnapshot]
            simpa [processMarkets, hid, hp, hl] using
              ih (store ++ [newSnapshot mid raw price now])
                (table ++ [(mid, store.length)]) hnew

theorem tick_store_ok (s : SState) (f : Except Unit (Option (List RawMarket)))
    (now : Int) (hok : ∀ md ∈ s.store, md.price_history.length ≤ 100) :
    ∀ md ∈ (tick s f now).1.store, md.price_history.length ≤ 100 := by
  cases f with
  | error e => simpa [tick] using hok
  | ok o =>
      cases o with
      | none => simpa [tick] using hok
      | some raws =>
          have hres := processMarkets_store_ok now (raws.take 20) s.store s.table hok
          by_cases hab : (processMarkets now (raws.take 20) s.store s.table).2.2.2 = true
          · simpa [tick, hab] using hres
          · simpa [tick, hab] using hres

theorem runTicks_store_ok
    (inputs : List ((Except Unit (Option (List RawMarket))) × Int)) :
    ∀ s : SState, (∀ md ∈ s.store, md.price_history.length ≤ 100) →
      ∀ md ∈ (runTicks s inputs).store, md.price_history.length ≤ 100 := by
  induction inputs with
  | nil => intro s hok; simpa [runTicks] using hok
  | cons fn rest ih =>
      intro s hok
      rcases fn with ⟨f, n⟩
      exact ih (tick s f n).1 (tick_store_ok s f n hok)

/-- Claim C7: starting from a fresh streamer, after any number of ticks with
any feed contents every snapshot's history holds at most 100 points, and
when a history is at capacity a push evicts the oldest entry first. -/
theorem claim_C7
    (inputs : List ((Except Unit (Option (List RawMarket))) × Int)) (t0 : Int) :
    (∀ md ∈ (runTicks (initState t0) inputs).store,
      md.price_history.length ≤ 100)
    ∧ (∀ (h : List ℚ) (p : ℚ), h.length = 100 →
        evictPush h p = h.tail ++ [p]) :=
  ⟨runTicks_store_ok inputs (initState t0) (by simp [initState]),
   evictPush_evicts_oldest⟩

/-- The constant one-market feed used by concrete runs. -/
def rawM : RawMarket :=
  { id := some "m", title := some "t", current_price := some 5 }

/-- A successful fetch delivering the single market `m`. -/
def feed1 : Except Unit (Option (List RawMarket)) :=
  Except.ok (some [rawM])

/-- Witness for C7: one tick on the fresh streamer yields the snapshot of
`m` whose history is within the bound, and a concrete 100-long history is
rotated oldest-first. -/
theorem claim_C7_witness :
    (newSnapshot "m" rawM 5 0 ∈ (runTicks (initState 0) [(feed1, 0)]).store ∧
      (newSnapshot "m" rawM 5 0).price_history.length ≤ 100)
    ∧ ((List.replicate 100 (1 : ℚ)).length = 100 ∧
        evictPush (List.replicate 100 (1 : ℚ)) 5 =
          (List.replicate 100 (1 : ℚ)).tail ++ [5]) :=
  ⟨⟨by decide, (claim_C7 [(feed1, 0)] 0).1 (newSnapshot "m" rawM 5 0) (by decide)⟩,
   ⟨by decide, (claim_C7 [(feed1, 0)] 0).2 (List.replicate 100 (1 : ℚ)) 5 (by decide)⟩⟩

/-- A tick only appends to the identifier table: in-place snapshot updates
touch the store, never the table, and new markets are appended at the end. -/
theorem processMarkets_table_extends (now : Int) (raws : List RawMarket) :
    ∀ (store : List MarketData) (table : List (String × Nat)),
      ∃ news, (processMarkets now raws store table).2.1 = table ++ news := by
  induction raws with
  | nil => intro store table; exact ⟨[], by simp [processMarkets]⟩
  | cons raw rest ih =>
      intro store table
      cases hid : raw.id with
      | none => simpa [processMarkets, hid] using ih store table
      | some mid =>
        cases hp : raw.current_price with
        | none => simpa [processMarkets, hid, hp] using ih store table
        | some price =>
          cases hl : lookupRef table mid with
          | some r =>
            cases hg : store[r]? with
            | some md =>
                by_cases hlen : 10 < (updateExisting md price now).price_history.length
                · exact ⟨[], by simp [processMarkets, hid, hp, hl, hg, hlen]⟩
                · obtain ⟨news, hnews⟩ :=
                    ih (store.set r (updateExisting md price now)) table
                  exact ⟨news, by simp [processMarkets, hid, hp, hl, hg, hlen, hnews]⟩
            | none => simpa [processMarkets, hid, hp, hl, hg] using ih store table
          | none =>
            obtain ⟨news, hnews⟩ :=
              ih (store ++ [newSnapshot mid raw price now])
                (table ++ [(mid, store.length)])
            refine ⟨(mid, store.length) :: news, ?_⟩
            simp [processMarkets, hid, hp, hl, hnews]

theorem tick_table_extends (s : SState)
    (f : Except Unit (Option (List RawMarket))) (now : Int) :
    ∃ news, (tick s f now).1.table = s.table ++ news := by
  cases f with
  | error e => exact ⟨[], by simp [tick]⟩
  | ok o =>
      cases o with
      | none => exact ⟨[], by simp [tick]⟩
      | some raws =>
          obtain ⟨news, h⟩ :=
            processMarkets_table_extends now (raws.take 20) s.store s.table
          by_cases hab : (processMarkets now (raws.take 20) s.store s.table).2.2.2 = true
          · exact ⟨news, by simp [tick, hab, h]⟩
          · exact ⟨news, by simp [tick, hab, h]⟩

theorem deref_take_append (store : List MarketData)
    (tbl news : List (String × Nat)) :
    (deref store (tbl ++ news)).take tbl.length = deref store tbl := by
  rw [deref, deref, List.map_append]
  rw [List.take_left']
  exact List.length_map tbl _

/-- Claim C8 (amended): `get_all_markets_data` returns a SHALLOW copy of the
snapshot dict.  Key-level isolation holds — a tick only appends new entries
to the internal table, so a previously returned copy never gains or loses
keys — but the snapshot objects behind the references are shared: the
caller's copy, dereferenced after the tick, equals the corresponding prefix
of the internal table dereferenced after the tick, i.e. it exposes the
tick's in-place mutations rather than the data at copy time.  (Subscribers
receive `self.markets_data` itself, sharing snapshots the same way.) -/
theorem claim_C8 (s : SState) (f : Except Unit (Option (List RawMarket)))
    (now : Int) :
    ∃ news, (tick s f now).1.table = s.table ++ news ∧
      deref (tick s f now).1.store s.table =
        ((deref (tick s f now).1.store (tick s f now).1.table).take
          s.table.length) := by
  obtain ⟨news, h⟩ := tick_table_extends s f now
  refine ⟨news, h, ?_⟩
  rw [h, deref_take_append]

/-- The snapshot and state used by the C8 counterexample. -/
def mdC8 : MarketData :=
  { market_id := "m", title := "t", current_price := 5, last_updated := 0,
    price_history := [5] }

/-- A streamer state holding one snapshot of market `m`. -/
def sC8 : SState :=
  { store := [mdC8], table := [("m", 0)], last_update := 0 }

/-- A feed entry that re-quotes market `m` at price 6. -/
def rawC8 : RawMarket :=
  { id := some "m", title := some "t", current_price := some 6 }

/-- Counterexample to C8 as stated: a caller that received the snapshot
table before the tick (the value `sC8.table`) sees DIFFERENT data through it
after the tick — the tick's in-place mutation of the shared snapshot object
is visible through the "defensive copy", so the copy is shallow, not a
read-only view. -/
theorem claim_C8_counterexample :
    deref (tick sC8 (Except.ok (some [rawC8])) 1).1.store sC8.table ≠
      deref sC8.store sC8.table := by decide

/-- Eleven consecutive ticks of the constant one-market feed, at times
0 through 10. -/
def runC4 : SState :=
  runTicks (initState 0) ((List.range 11).map (fun i => (feed1, (i : Int))))

/-- Demonstration for C4 (code bug): `market_data_streamer.py` uses
`np.std`/`np.sqrt` at line 163 but never imports numpy, so the first tick
that takes a snapshot's history past 10 points raises `NameError` inside
the volatility block; the blanket handler swallows it and the tick aborts.
After 11 ticks of a constant feed the single snapshot's history has 11
points (> 10) yet its volatility is still `None` — contradicting the claim
that it then equals the annualized standard deviation of returns — and the
aborted 11th tick left `last_update` at 9 and sent no notification. -/
theorem claim_C4 :
    runC4.store.map (fun md => md.price_history.length) = [11]
    ∧ runC4.store.map (fun md => md.volatility) = [none]
    ∧ runC4.last_update = 9
    ∧ (tick (runTicks (initState 0)
        ((List.range 10).map (fun i => (feed1, (i : Int))))) feed1 10).2 = none := by
  refine ⟨by decide, by decide, by decide, by decide⟩
